import Mathlib

/-!
Verification of the `three-state-counter` package (`src/core.js`,
`ThreeStateCounter`): an in-memory counter backed by an append-only
operation log (a text file of signed decimal deltas, one per line) and a
durable sqlite snapshot holding the last flushed value.

File contents are modelled as `List Char` (JavaScript strings).  The
JavaScript string operations used by the source (`String#trim`,
`String#split("\n")`, `parseInt(line, 10)`, template interpolation of a
number) are embedded below, followed by the counter state machine.
-/

/-- JavaScript whitespace test, restricted to the ASCII whitespace
characters that can occur in this program's files. -/
def jsIsSpace (c : Char) : Bool :=
  c == ' ' || c == '\t' || c == '\n' || c == '\r' || c == '\x0b' || c == '\x0c'

/-- JavaScript `String#trim`: drop whitespace from both ends. -/
def jsTrim (s : List Char) : List Char :=
  ((s.dropWhile jsIsSpace).reverse.dropWhile jsIsSpace).reverse

/-- JavaScript `String#split("\n")`: split on newline separators.
`"".split("\n")` is `[""]`, matching the `[[]]` base case. -/
def splitNl : List Char → List (List Char)
  | [] => [[]]
  | c :: cs =>
    match splitNl cs with
    | [] => [[]]
    | l :: ls => if c = '\n' then [] :: l :: ls else (c :: l) :: ls

/-- Numeric value of a decimal digit character (JS char code minus 48). -/
def digitVal (c : Char) : Nat := c.toNat - 48

/-- Accumulate the value of a big-endian digit string. -/
def digitsToNat (cs : List Char) : Nat :=
  cs.foldl (fun a c => 10 * a + digitVal c) 0

/-- Longest decimal-digit prefix, as a number; `none` if there is no
leading digit (JS `parseInt` yields `NaN` there). -/
def parseLeadingDigits (s : List Char) : Option Nat :=
  if s.takeWhile Char.isDigit = [] then none
  else some (digitsToNat (s.takeWhile Char.isDigit))

/-- JavaScript `parseInt(s, 10)`: skip leading whitespace, read an
optional sign, then the longest digit prefix; `none` models `NaN`. -/
def jsParseInt (s : List Char) : Option Int :=
  match s.dropWhile jsIsSpace with
  | [] => none
  | c :: rest =>
    if c = '-' then (parseLeadingDigits rest).map (fun n => -(n : Int))
    else if c = '+' then (parseLeadingDigits rest).map (fun n => (n : Int))
    else (parseLeadingDigits (c :: rest)).map (fun n => (n : Int))

/-- Decimal rendering of a natural number, big-endian, via fuelled
division by 10 (the fuel is always sufficient, see `natToChars`). -/
def natToCharsAux : Nat → Nat → List Char
  | 0, _ => []
  | fuel + 1, n =>
    if n = 0 then []
    else natToCharsAux fuel (n / 10) ++ [Nat.digitChar (n % 10)]

/-- JavaScript rendering of a non-negative number: `String(n)`. -/
def natToChars (n : Nat) : List Char :=
  if n = 0 then ['0'] else natToCharsAux n n

/-- JavaScript rendering of an integer, as produced by `` `${delta}` ``. -/
def intToChars : Int → List Char
  | .ofNat n => natToChars n
  | .negSucc m => '-' :: natToChars (m + 1)

-- ### Basic facts about digits and whitespace

lemma isDigit_digitChar {d : Nat} (h : d < 10) :
    (Nat.digitChar d).isDigit = true := by
  interval_cases d <;> decide

lemma digitVal_digitChar {d : Nat} (h : d < 10) :
    digitVal (Nat.digitChar d) = d := by
  interval_cases d <;> decide

lemma not_space_of_isDigit {c : Char} (h : c.isDigit = true) :
    jsIsSpace c = false := by
  simp only [jsIsSpace, Bool.or_eq_false_iff, beq_eq_false_iff_ne, ne_eq]
  refine ⟨⟨⟨⟨⟨?_, ?_⟩, ?_⟩, ?_⟩, ?_⟩, ?_⟩ <;> rintro rfl <;> simp_all

lemma ne_newline_of_isDigit {c : Char} (h : c.isDigit = true) :
    c ≠ '\n' := by
  rintro rfl; simp_all

lemma ne_minus_of_isDigit {c : Char} (h : c.isDigit = true) :
    c ≠ '-' := by
  rintro rfl; simp_all

lemma ne_plus_of_isDigit {c : Char} (h : c.isDigit = true) :
    c ≠ '+' := by
  rintro rfl; simp_all

-- ### natToChars: digits only, non-empty, and parse round trip

lemma natToCharsAux_all_digits :
    ∀ fuel n, ∀ c ∈ natToCharsAux fuel n, c.isDigit = true := by
  intro fuel
  induction fuel with
  | zero => intro n c hc; simp [natToCharsAux] at hc
  | succ fuel ih =>
    intro n c hc
    by_cases h0 : n = 0
    · simp [natToCharsAux, h0] at hc
    · simp only [natToCharsAux, h0, if_false, List.mem_append,
        List.mem_singleton] at hc
      rcases hc with hc | rfl
      · exact ih _ c hc
      · exact isDigit_digitChar (Nat.mod_lt n (by norm_num))

lemma natToChars_all_digits (n : Nat) :
    ∀ c ∈ natToChars n, c.isDigit = true := by
  intro c hc
  unfold natToChars at hc
  by_cases h0 : n = 0
  · simp [h0] at hc; simp [hc]
  · simp only [h0, if_false] at hc
    exact natToCharsAux_all_digits n n c hc

lemma natToChars_ne_nil (n : Nat) : natToChars n ≠ [] := by
  unfold natToChars
  by_cases h0 : n = 0
  · simp [h0]
  · simp only [h0, if_false]
    cases fuel_eq : n with
    | zero => exact absurd fuel_eq h0
    | succ f =>
      simp [natToCharsAux, h0]

lemma foldl_natToCharsAux :
    ∀ fuel n, n ≤ fuel → ∀ a : Nat,
      (natToCharsAux fuel n).foldl (fun x c => 10 * x + digitVal c) a =
        a * 10 ^ (natToCharsAux fuel n).length + n := by
  intro fuel
  induction fuel with
  | zero =>
    intro n hn a
    interval_cases n
    simp [natToCharsAux]
  | succ fuel ih =>
    intro n hn a
    by_cases h0 : n = 0
    · simp [natToCharsAux, h0]
    · have hdiv : n / 10 ≤ fuel := by
        have h1 : n / 10 < n := Nat.div_lt_self (Nat.pos_of_ne_zero h0) (by norm_num)
        omega
      simp only [natToCharsAux, h0, if_false, List.foldl_append,
        List.foldl_cons, List.foldl_nil, List.length_append,
        List.length_cons, List.length_nil]
      rw [ih _ hdiv a]
      have hmod : digitVal (Nat.digitChar (n % 10)) = n % 10 :=
        digitVal_digitChar (Nat.mod_lt n (by norm_num))
      rw [hmod]
      have := Nat.div_add_mod n 10
      ring_nf
      omega

lemma digitsToNat_natToChars (n : Nat) : digitsToNat (natToChars n) = n := by
  unfold natToChars digitsToNat
  by_cases h0 : n = 0
  · simp [h0, digitVal]
  · simp only [h0, if_false]
    rw [foldl_natToCharsAux n n (le_refl n) 0]
    simp

-- ### takeWhile / dropWhile helpers

lemma takeWhile_eq_self_of_all {p : Char → Bool} :
    ∀ {L : List Char}, (∀ c ∈ L, p c = true) → L.takeWhile p = L := by
  intro L
  induction L with
  | nil => intro _; rfl
  | cons c t ih =>
    intro h
    have hc : p c = true := h c (List.mem_cons_self c t)
    simp only [List.takeWhile_cons, hc, if_true, List.cons.injEq, true_and]
    exact ih (fun x hx => h x (List.mem_cons_of_mem c hx))

lemma dropWhile_cons_of_neg {p : Char → Bool} {c : Char} {t : List Char}
    (h : p c = false) : (c :: t).dropWhile p = c :: t := by
  simp [List.dropWhile_cons, h]

-- ### parseLeadingDigits and jsParseInt round trips

lemma parseLeadingDigits_natToChars (n : Nat) :
    parseLeadingDigits (natToChars n) = some n := by
  unfold parseLeadingDigits
  rw [takeWhile_eq_self_of_all (natToChars_all_digits n)]
  simp [natToChars_ne_nil n, digitsToNat_natToChars n]

lemma jsParseInt_natToChars (n : Nat) :
    jsParseInt (natToChars n) = some (n : Int) := by
  unfold jsParseInt
  obtain ⟨c, t, hct⟩ : ∃ c t, natToChars n = c :: t := by
    cases h : natToChars n with
    | nil => exact absurd h (natToChars_ne_nil n)
    | cons c t => exact ⟨c, t, rfl⟩
  have hd : c.isDigit = true := natToChars_all_digits n c (by rw [hct]; exact List.mem_cons_self c t)
  have hs : jsIsSpace c = false := not_space_of_isDigit hd
  rw [hct, dropWhile_cons_of_neg hs]
  simp only [ne_minus_of_isDigit hd, if_false, ne_plus_of_isDigit hd, if_false]
  rw [← hct, parseLeadingDigits_natToChars n]
  rfl

lemma jsParseInt_intToChars (d : Int) :
    jsParseInt (intToChars d) = some d := by
  cases d with
  | ofNat n => exact jsParseInt_natToChars n
  | negSucc m =>
    show jsParseInt ('-' :: natToChars (m + 1)) = some (Int.negSucc m)
    unfold jsParseInt
    rw [dropWhile_cons_of_neg (by decide : jsIsSpace '-' = false)]
    simp only [if_true, parseLeadingDigits_natToChars (m + 1), Option.map_some]
    congr 1

-- ### Facts about the characters of intToChars

lemma intToChars_ne_nil (d : Int) : intToChars d ≠ [] := by
  cases d with
  | ofNat n => exact natToChars_ne_nil n
  | negSucc m => simp [intToChars]

lemma intToChars_not_space (d : Int) :
    ∀ c ∈ intToChars d, jsIsSpace c = false := by
  intro c hc
  cases d with
  | ofNat n => exact not_space_of_isDigit (natToChars_all_digits n c hc)
  | negSucc m =>
    rcases List.mem_cons.mp hc with rfl | hm
    · decide
    · exact not_space_of_isDigit (natToChars_all_digits (m + 1) c hm)

lemma intToChars_no_newline (d : Int) : '\n' ∉ intToChars d := by
  intro h
  have := intToChars_not_space d '\n' h
  simp [jsIsSpace] at this

-- ### splitNl lemmas

lemma splitNl_ne_nil : ∀ s : List Char, splitNl s ≠ [] := by
  intro s
  induction s with
  | nil => simp [splitNl]
  | cons c cs ih =>
    simp only [splitNl]
    cases h : splitNl cs with
    | nil => simp
    | cons l ls =>
      by_cases hc : c = '\n' <;> simp [hc]

lemma splitNl_of_no_newline :
    ∀ {A : List Char}, '\n' ∉ A → splitNl A = [A] := by
  intro A
  induction A with
  | nil => intro _; rfl
  | cons c t ih =>
    intro h
    have hc : c ≠ '\n' := fun hh => h (hh ▸ List.mem_cons_self c t)
    have ht : '\n' ∉ t := fun hh => h (List.mem_cons_of_mem c hh)
    simp only [splitNl, ih ht, hc, if_false]

lemma splitNl_append_newline :
    ∀ {A B : List Char}, '\n' ∉ A →
      splitNl (A ++ '\n' :: B) = A :: splitNl B := by
  intro A
  induction A with
  | nil =>
    intro B _
    simp only [List.nil_append, splitNl]
    cases h : splitNl B with
    | nil => exact absurd h (splitNl_ne_nil B)
    | cons l ls => simp
  | cons c t ih =>
    intro B h
    have hc : c ≠ '\n' := fun hh => h (hh ▸ List.mem_cons_self c t)
    have ht : '\n' ∉ t := fun hh => h (List.mem_cons_of_mem c hh)
    simp only [List.cons_append, splitNl]
    rw [show t.append ('\n' :: B) = t ++ '\n' :: B from rfl, ih ht]
    simp [hc]

-- ### Log encodings and their replay

/-- The log text produced by a sequence of sync-mode appends of the
deltas `ds` (each append writes `` `${delta}\n` ``, `core.js` line 197). -/
def encodeLog : List Int → List Char
  | [] => []
  | d :: ds => intToChars d ++ '\n' :: encodeLog ds

/-- The text appended by one async write-buffer drain for the batch
`ds`: `toWrite.join("\n") + "\n"` (`core.js` line 224). -/
def joinNl : List Int → List Char
  | [] => ['\n']
  | [d] => intToChars d ++ ['\n']
  | d :: d2 :: ds => intToChars d ++ '\n' :: joinNl (d2 :: ds)

/-- The log text of `ds` without the trailing newline. -/
def encNT : List Int → List Char
  | [] => []
  | [d] => intToChars d
  | d :: d2 :: ds => intToChars d ++ '\n' :: encNT (d2 :: ds)

lemma joinNl_eq_encodeLog : ∀ {ds : List Int}, ds ≠ [] → joinNl ds = encodeLog ds := by
  intro ds
  induction ds with
  | nil => intro h; exact absurd rfl h
  | cons d t ih =>
    intro _
    cases t with
    | nil => simp [joinNl, encodeLog]
    | cons d2 t2 =>
      simp only [joinNl, encodeLog]
      rw [ih (by simp)]
      rfl

lemma encodeLog_append (ds es : List Int) :
    encodeLog (ds ++ es) = encodeLog ds ++ encodeLog es := by
  induction ds with
  | nil => simp [encodeLog]
  | cons d t ih => simp [encodeLog, ih]

lemma encodeLog_eq_encNT :
    ∀ {ds : List Int}, ds ≠ [] → encodeLog ds = encNT ds ++ ['\n'] := by
  intro ds
  induction ds with
  | nil => intro h; exact absurd rfl h
  | cons d t ih =>
    intro _
    cases t with
    | nil => simp [encodeLog, encNT]
    | cons d2 t2 =>
      rw [show encodeLog (d :: d2 :: t2) =
            intToChars d ++ '\n' :: encodeLog (d2 :: t2) from rfl,
        ih (by simp),
        show encNT (d :: d2 :: t2) =
            intToChars d ++ '\n' :: encNT (d2 :: t2) from rfl]
      simp

lemma encNT_head :
    ∀ {ds : List Int}, ds ≠ [] →
      ∃ c t, encNT ds = c :: t ∧ jsIsSpace c = false := by
  intro ds
  cases ds with
  | nil => intro h; exact absurd rfl h
  | cons d t =>
    intro _
    have hne := intToChars_ne_nil d
    obtain ⟨c, u, hcu⟩ : ∃ c u, intToChars d = c :: u := by
      cases h : intToChars d with
      | nil => exact absurd h hne
      | cons c u => exact ⟨c, u, rfl⟩
    have hc : jsIsSpace c = false :=
      intToChars_not_space d c (by rw [hcu]; exact List.mem_cons_self c u)
    cases t with
    | nil => exact ⟨c, u, by simp [encNT, hcu], hc⟩
    | cons d2 t2 =>
      refine ⟨c, u ++ '\n' :: encNT (d2 :: t2), ?_, hc⟩
      simp [encNT, hcu]

lemma encNT_last :
    ∀ {ds : List Int}, ds ≠ [] →
      ∃ t c, encNT ds = t ++ [c] ∧ jsIsSpace c = false := by
  intro ds
  induction ds with
  | nil => intro h; exact absurd rfl h
  | cons d u ih =>
    intro _
    cases u with
    | nil =>
      have hne := intToChars_ne_nil d
      refine ⟨(intToChars d).dropLast, (intToChars d).getLast hne, ?_, ?_⟩
      · simp [encNT, List.dropLast_append_getLast hne]
      · exact intToChars_not_space d _ (List.getLast_mem hne)
    | cons d2 t2 =>
      obtain ⟨t, c, ht, hc⟩ := ih (by simp)
      refine ⟨intToChars d ++ '\n' :: t, c, ?_, hc⟩
      simp [encNT, ht]

lemma jsTrim_append_newline {X : List Char} (hne : X ≠ [])
    (hhead : ∃ c t, X = c :: t ∧ jsIsSpace c = false)
    (hlast : ∃ t c, X = t ++ [c] ∧ jsIsSpace c = false) :
    jsTrim (X ++ ['\n']) = X := by
  obtain ⟨c, t, rfl, hc⟩ := hhead
  obtain ⟨t', c', hX, hc'⟩ := hlast
  unfold jsTrim
  rw [show (c :: t) ++ ['\n'] = c :: (t ++ ['\n']) from rfl,
    dropWhile_cons_of_neg hc]
  rw [show c :: (t ++ ['\n']) = (c :: t) ++ ['\n'] from rfl]
  rw [List.reverse_append, hX]
  simp only [List.reverse_cons, List.reverse_nil, List.nil_append,
    List.singleton_append, List.reverse_append]
  rw [List.dropWhile_cons]
  simp only [show jsIsSpace '\n' = true from rfl, if_true]
  rw [dropWhile_cons_of_neg hc']
  simp

lemma jsTrim_encodeLog {ds : List Int} (h : ds ≠ []) :
    jsTrim (encodeLog ds) = encNT ds := by
  rw [encodeLog_eq_encNT h]
  have hne : encNT ds ≠ [] := by
    obtain ⟨c, t, hct, _⟩ := encNT_head h
    rw [hct]; simp
  exact jsTrim_append_newline hne (encNT_head h) (encNT_last h)

lemma splitNl_encNT :
    ∀ {ds : List Int}, ds ≠ [] →
      splitNl (encNT ds) = ds.map intToChars := by
  intro ds
  induction ds with
  | nil => intro h; exact absurd rfl h
  | cons d t ih =>
    intro _
    cases t with
    | nil =>
      simp only [encNT, List.map_cons, List.map_nil]
      exact splitNl_of_no_newline (intToChars_no_newline d)
    | cons d2 t2 =>
      simp only [encNT, List.map_cons]
      rw [splitNl_append_newline (intToChars_no_newline d), ih (by simp)]
      simp

/-- The loop body of `_replayLog` (`core.js` lines 178-184): skip empty
lines, add each line's `parseInt` value when it is not `NaN`. -/
def replayLines (v : Int) (lines : List (List Char)) : Int :=
  lines.foldl
    (fun acc line =>
      if line = [] then acc
      else
        match jsParseInt line with
        | some delta => acc + delta
        | none => acc)
    v

lemma replayLines_append (v : Int) (l1 l2 : List (List Char)) :
    replayLines v (l1 ++ l2) = replayLines (replayLines v l1) l2 := by
  simp [replayLines, List.foldl_append]

lemma replayLines_map_intToChars :
    ∀ (ds : List Int) (v : Int),
      replayLines v (ds.map intToChars) = v + ds.sum := by
  intro ds
  induction ds with
  | nil => intro v; simp [replayLines]
  | cons d t ih =>
    intro v
    simp only [List.map_cons, replayLines, List.foldl_cons]
    rw [if_neg (intToChars_ne_nil d), jsParseInt_intToChars d]
    have := ih (v + d)
    simp only [replayLines] at this
    rw [this, List.sum_cons]
    ring

lemma replay_encodeLog (ds : List Int) (v : Int) :
    replayLines v (splitNl (jsTrim (encodeLog ds))) = v + ds.sum := by
  cases ds with
  | nil => simp [encodeLog, jsTrim, splitNl, replayLines]
  | cons d t =>
    rw [jsTrim_encodeLog (by simp), splitNl_encNT (by simp),
      replayLines_map_intToChars]

-- ### The counter state machine (src/core.js, `ThreeStateCounter`)

/-- Durability mode, fixed at construction (`core.js` line 117).  The
constructor throws `ConfigInvalid` for any other string, so the type
carries only the two valid values. -/
inductive Mode
  | sync
  | async
deriving DecidableEq, Repr

/-- Errors surfaced by the fallible operations.  `logWriteFailed` is a
rethrown `fs.appendFileSync` error (`core.js` line 200), `flushFailed` a
rethrown Durable-Store write error (`core.js` line 283), and
`dbAlreadyClosed` the `SQLITE_MISUSE` rejection the sqlite driver
produces when `db.close()` is invoked on an already-released handle
(which is why `src/index.js` guards every `close` behind a `db.open`
check). -/
inductive JsError
  | logWriteFailed
  | flushFailed
  | dbAlreadyClosed
deriving DecidableEq, Repr

/-- The world outside the instance: the sqlite `counter_state` row
(`none` = row absent) and the log file (`none` = file does not exist,
`fs.existsSync` is false). -/
structure Disk where
  store : Option Int
  log : Option (List Char)
deriving DecidableEq, Repr

/-- A disk on which neither the database row nor the log file exists. -/
def freshDisk : Disk := { store := none, log := none }

/-- Instance state of `ThreeStateCounter` (`core.js` lines 113-136).
`dbInit` is `this.db !== null`; `dbOpen` is the handle's open flag —
the Durable Store is an external collaborator reached through an
open/close lifecycle, and both `flush` (`core.js` line 266) and the
manager in `src/index.js` read `this.db.open` as that flag. -/
structure Counter where
  mode : Mode
  flushEvery : Int
  value : Int
  pending : Int
  dbInit : Bool
  dbOpen : Bool
  writeBuffer : List Int
  flushTimer : Bool
  isWriting : Bool
deriving DecidableEq, Repr

/-- The constructor (`core.js` lines 113-136): all counters start with
value 0, nothing pending, no database handle, an empty write buffer and
no scheduled drain. -/
def mkCounter (mode : Mode) (flushEvery : Int) : Counter :=
  { mode := mode, flushEvery := flushEvery, value := 0, pending := 0,
    dbInit := false, dbOpen := false, writeBuffer := [],
    flushTimer := false, isWriting := false }

/-- `getValue()` (`core.js` lines 259-261): pure read of the in-memory
value. -/
def getValue (c : Counter) : Int := c.value

/-- `_initDB()` (`core.js` lines 146-162): open a handle, create the
table if absent, and `INSERT OR IGNORE` the row `(1, 0)` — an existing
value is kept, otherwise 0 is stored. -/
def initDB (c : Counter) (d : Disk) : Counter × Disk :=
  ({ c with dbInit := true, dbOpen := true },
   { d with store := some (d.store.getD 0) })

/-- `_loadState()` (`core.js` lines 164-169): `row?.value ?? 0`. -/
def loadState (c : Counter) (d : Disk) : Counter :=
  { c with value := d.store.getD 0 }

/-- `_replayLog()` (`core.js` lines 171-191): if the log file exists,
trim it, split on newlines, add every line that parses as an integer
(`NaN` lines and empty lines are skipped), then truncate the file.
Errors are caught and only logged, so the operation is total. -/
def replayLog (c : Counter) (d : Disk) : Counter × Disk :=
  match d.log with
  | none => (c, d)
  | some content =>
    ({ c with value := replayLines c.value (splitNl (jsTrim content)) },
     { d with log := some [] })

/-- `init()` (`core.js` lines 140-144): `_initDB`, `_loadState`,
`_replayLog`, in that order. -/
def initOp (c : Counter) (d : Disk) : Counter × Disk :=
  let (c1, d1) := initDB c d
  let c2 := loadState c1 d1
  replayLog c2 d1

/-- Successful `_logOperationSync(delta)` (`core.js` lines 195-202):
`fs.appendFileSync(this.logPath, `${delta}\n`)`, creating the file if it
does not exist. -/
def logOperationSync (delta : Int) (d : Disk) : Disk :=
  { d with log := some (d.log.getD [] ++ intToChars delta ++ ['\n']) }

/-- `_logOperationAsync(delta)` (`core.js` lines 204-212): push onto the
write buffer and schedule a drain timer if none is pending. -/
def logOperationAsync (delta : Int) (c : Counter) : Counter :=
  { c with writeBuffer := c.writeBuffer ++ [delta], flushTimer := true }

/-- `_flushWriteBuffer()` (`core.js` lines 214-238), success path: if a
drain is in flight or the buffer is empty, do nothing; otherwise clear
the timer, swap the buffer out, and append `toWrite.join("\n") + "\n"`
to the log file.  On success the buffer is empty afterwards, so no
follow-up drain is scheduled, and `isWriting` is false again when the
function returns. -/
def flushWriteBuffer (c : Counter) (d : Disk) : Counter × Disk :=
  if c.isWriting = true ∨ c.writeBuffer = [] then (c, d)
  else
    ({ c with flushTimer := false, writeBuffer := [] },
     { d with log := some (d.log.getD [] ++ joinNl c.writeBuffer) })

/-- `flush()` (`core.js` lines 265-285) with an explicit outcome for the
Durable-Store write.  The triple is (result of the call, instance state
when control returns or the error propagates, disk).  If the handle is
missing or closed the flush returns immediately; otherwise in async
mode the write buffer is drained first, then the `UPDATE` runs — on
success the log is truncated and `pending` reset, on failure the error
is rethrown with the remaining steps skipped. -/
def flushT (dbOk : Bool) (c : Counter) (d : Disk) :
    Except JsError Unit × Counter × Disk :=
  if c.dbInit = false ∨ c.dbOpen = false then (.ok (), c, d)
  else
    let s1 := if c.mode = .async then flushWriteBuffer c d else (c, d)
    if dbOk then
      (.ok (), { s1.1 with pending := 0 },
       { s1.2 with store := some s1.1.value, log := some [] })
    else (.error .flushFailed, s1.1, s1.2)

/-- `flush()` on the success path. -/
def flush (c : Counter) (d : Disk) : Counter × Disk :=
  (flushT true c d).2

/-- `increment(delta)` (`core.js` lines 240-253) after the log append
has succeeded: advance the value, bump `pending`, and run `flush` when
`pending >= flushEvery`.  (The source calls `this.flush()` without
awaiting it; under the single-threaded event-loop model it is executed
here to completion.) -/
def incrementRest (delta : Int) (c : Counter) (d : Disk) : Counter × Disk :=
  let c1 := { c with value := c.value + delta, pending := c.pending + 1 }
  if c1.flushEvery ≤ c1.pending then flush c1 d else (c1, d)

/-- `increment(delta)` (`core.js` lines 240-253) with an explicit
outcome for the sync-mode log append.  The triple is (result, instance
state when control returns or the error propagates, disk).  In sync
mode a failed `appendFileSync` rethrows BEFORE `this.value += delta`
runs, so the instance is unchanged; in async mode the append is
buffered and cannot fail here. -/
def incrementT (appendOk : Bool) (delta : Int) (c : Counter) (d : Disk) :
    Except JsError Unit × Counter × Disk :=
  match c.mode with
  | .sync =>
    if appendOk then (.ok (), incrementRest delta c (logOperationSync delta d))
    else (.error .logWriteFailed, c, d)
  | .async => (.ok (), incrementRest delta (logOperationAsync delta c) d)

/-- `increment(delta)` on the success path. -/
def increment (delta : Int) (c : Counter) (d : Disk) : Counter × Disk :=
  (incrementT true delta c d).2

/-- `decrement(delta)` (`core.js` lines 255-257): `increment(-delta)`. -/
def decrement (delta : Int) (c : Counter) (d : Disk) : Counter × Disk :=
  increment (-delta) c d

/-- `this.db.close()`: release the Durable Store handle.  The sqlite
driver rejects a close of an already-released handle with
`SQLITE_MISUSE` (the reason `src/index.js` wraps `close` in a
`db && db.open` guard). -/
def dbCloseT (c : Counter) : Except JsError Counter :=
  if c.dbOpen = true then .ok { c with dbOpen := false }
  else .error .dbAlreadyClosed

/-- `close()` (`core.js` lines 287-301): cancel a pending drain timer,
drain the write buffer in async mode, `flush()` (success path), then
`this.db.close()`. -/
def closeT (c : Counter) (d : Disk) : Except JsError Unit × Counter × Disk :=
  let c1 := { c with flushTimer := false }
  let s2 := if c1.mode = .async then flushWriteBuffer c1 d else (c1, d)
  let s3 := flush s2.1 s2.2
  match dbCloseT s3.1 with
  | .ok c4 => (.ok (), c4, s3.2)
  | .error e => (.error e, s3.1, s3.2)

/-- A run of successful `increment` calls, in order. -/
def incrementsRun (ds : List Int) (s : Counter × Disk) : Counter × Disk :=
  ds.foldl (fun s delta => increment delta s.1 s.2) s

/-- The value the Durable Store holds (0 if the row is absent, as
`_loadState` reads it). -/
def storeValue (d : Disk) : Int := d.store.getD 0

/-- The sum that replaying the current log contents would add to the
loaded value — the source's `_replayLog` pipeline applied to the file
(an absent file contributes 0). -/
def logReplaySum (d : Disk) : Int :=
  replayLines 0 (splitNl (jsTrim (d.log.getD [])))

-- ### Characterising init and sync-mode runs

lemma initOp_none (c : Counter) (d : Disk) (h : d.log = none) :
    initOp c d =
      ({ c with dbInit := true, dbOpen := true, value := d.store.getD 0 },
       { store := some (d.store.getD 0), log := none }) := by
  simp only [initOp, initDB, loadState, replayLog, h, Option.getD_some]

lemma initOp_some (c : Counter) (d : Disk) (content : List Char)
    (h : d.log = some content) :
    initOp c d =
      ({ c with dbInit := true, dbOpen := true,
                value := replayLines (d.store.getD 0) (splitNl (jsTrim content)) },
       { store := some (d.store.getD 0), log := some [] }) := by
  simp only [initOp, initDB, loadState, replayLog, h, Option.getD_some]

lemma replayLines_empty_line (v : Int) : replayLines v [[]] = v := by
  simp [replayLines]

lemma incrementsRun_cons (delta : Int) (ds : List Int) (s : Counter × Disk) :
    incrementsRun (delta :: ds) s =
      incrementsRun ds (increment delta s.1 s.2) := by
  simp [incrementsRun]

lemma increment_sync_no_flush (delta : Int) (c : Counter) (d : Disk)
    (hm : c.mode = .sync) (hp : ¬ c.flushEvery ≤ c.pending + 1) :
    increment delta c d =
      ({ c with value := c.value + delta, pending := c.pending + 1 },
       { d with log := some (d.log.getD [] ++ encodeLog [delta]) }) := by
  simp only [increment, incrementT, hm, if_true, incrementRest,
    logOperationSync]
  rw [if_neg hp]
  simp [encodeLog]

lemma incrementsRun_sync :
    ∀ (ds : List Int) (c : Counter) (d : Disk) (L : List Char),
      c.mode = .sync → d.log = some L →
      c.pending + (ds.length : Int) < c.flushEvery →
      (incrementsRun ds (c, d)).1.mode = .sync ∧
      (incrementsRun ds (c, d)).1.flushEvery = c.flushEvery ∧
      (incrementsRun ds (c, d)).1.value = c.value + ds.sum ∧
      (incrementsRun ds (c, d)).1.pending = c.pending + ds.length ∧
      (incrementsRun ds (c, d)).2.store = d.store ∧
      (incrementsRun ds (c, d)).2.log = some (L ++ encodeLog ds) := by
  intro ds
  induction ds with
  | nil =>
    intro c d L hm hd _
    refine ⟨hm, rfl, by simp [incrementsRun], by simp [incrementsRun],
      rfl, ?_⟩
    simp [incrementsRun, hd, encodeLog]
  | cons delta t ih =>
    intro c d L hm hd hfe
    have hlen : ((delta :: t).length : Int) = (t.length : Int) + 1 := by
      push_cast [List.length_cons]; ring
    have hp : ¬ c.flushEvery ≤ c.pending + 1 := by
      rw [hlen] at hfe; omega
    rw [incrementsRun_cons, increment_sync_no_flush delta c d hm hp]
    have hd' : ({ d with log := some (d.log.getD [] ++ encodeLog [delta]) } : Disk).log
        = some (L ++ encodeLog [delta]) := by simp [hd]
    have hfe' :
        ({ c with value := c.value + delta, pending := c.pending + 1 } : Counter).pending
          + (t.length : Int)
        < ({ c with value := c.value + delta, pending := c.pending + 1 } : Counter).flushEvery := by
      simp only []
      rw [hlen] at hfe; omega
    obtain ⟨h1, h2, h3, h4, h5, h6⟩ := ih
      { c with value := c.value + delta, pending := c.pending + 1 }
      { d with log := some (d.log.getD [] ++ encodeLog [delta]) }
      (L ++ encodeLog [delta]) (by simp [hm]) hd' hfe'
    refine ⟨h1, by rw [h2], ?_, ?_, by rw [h5], ?_⟩
    · rw [h3]; simp only [List.sum_cons]; ring
    · rw [h4]; simp only [List.length_cons]; push_cast; ring
    · rw [h6, List.append_assoc, ← encodeLog_append]
      simp

/-- Claim C1: replay correctness.  Start from a Durable Store holding
`v0` and an empty log, apply any deltas `d1..dn` via increment (a
decrement is `increment` of a negated delta) in sync mode without the
automatic flush ever firing (`n < flushEvery`); then a fresh instance
over the same store/log location satisfies
`getValue() == v0 + sum(d1..dn)` after `init()`. -/
theorem replay_correctness (v0 : Int) (ds : List Int) (fe fe2 : Int)
    (hfe : (ds.length : Int) < fe) :
    getValue (initOp (mkCounter .sync fe2)
      (incrementsRun ds (initOp (mkCounter .sync fe) ⟨some v0, some []⟩)).2).1
      = v0 + ds.sum := by
  have h0 : initOp (mkCounter .sync fe) ⟨some v0, some []⟩ =
      ({ mkCounter .sync fe with dbInit := true, dbOpen := true, value := v0 },
       { store := some v0, log := some [] }) := by
    rw [initOp_some _ _ [] rfl]
    simp only [show splitNl (jsTrim ([] : List Char)) = [[]] from rfl,
      replayLines_empty_line]
    simp
  rw [h0]
  obtain ⟨h1, h2, h3, h4, h5, h6⟩ := incrementsRun_sync ds
    { mkCounter .sync fe with dbInit := true, dbOpen := true, value := v0 }
    { store := some v0, log := some [] } [] rfl rfl
    (by simpa [mkCounter] using hfe)
  rw [initOp_some _ _ (encodeLog ds) (by rw [h6]; simp)]
  simp only [getValue]
  rw [h5]
  simp only [Option.getD_some]
  exact replay_encodeLog ds v0

/-- Witness for `replay_correctness` at `v0 = 7`, deltas `[2, -3, 4]`,
`flushEvery = 5`. -/
theorem replay_correctness_witness :
    ((([2, -3, 4] : List Int).length : Int) < 5) ∧
      getValue (initOp (mkCounter .sync 9)
        (incrementsRun [2, -3, 4] (initOp (mkCounter .sync 5) ⟨some 7, some []⟩)).2).1
        = 7 + ([2, -3, 4] : List Int).sum :=
  ⟨by norm_num, replay_correctness 7 [2, -3, 4] 5 9 (by norm_num)⟩

-- ### Reachable states and the three-state invariant

/-- States reachable from a first `init()` over a fresh store/log by any
sequence of increments, decrements and write-buffer drains (the drain is
the timer callback scheduled by async-mode increments; sync-mode
increments never buffer).  Automatic flushes triggered by the pending
threshold happen inside `increment` itself. -/
inductive Reachable : Counter → Disk → Prop
  | boot (m : Mode) (fe : Int) :
      Reachable (initOp (mkCounter m fe) freshDisk).1
        (initOp (mkCounter m fe) freshDisk).2
  | inc (delta : Int) {c : Counter} {d : Disk} :
      Reachable c d →
      Reachable (increment delta c d).1 (increment delta c d).2
  | dec (delta : Int) {c : Counter} {d : Disk} :
      Reachable c d →
      Reachable (decrement delta c d).1 (decrement delta c d).2
  | drain {c : Counter} {d : Disk} :
      Reachable c d →
      Reachable (flushWriteBuffer c d).1 (flushWriteBuffer c d).2

/-- Induction invariant carried through `Reachable`: no drain is ever
left in flight, sync mode never buffers, the store row exists, the log
is exactly the encoding of some delta list (or still absent), and the
in-memory value is the stored value plus the logged deltas plus the
buffered deltas. -/
def StateInv (c : Counter) (d : Disk) : Prop :=
  c.isWriting = false ∧
  (c.mode = .sync → c.writeBuffer = []) ∧
  ∃ s ds, d.store = some s ∧
    (d.log = some (encodeLog ds) ∨ (d.log = none ∧ ds = [])) ∧
    c.value = s + ds.sum + c.writeBuffer.sum

lemma stateInv_flushWriteBuffer {c : Counter} {d : Disk} (h : StateInv c d) :
    StateInv (flushWriteBuffer c d).1 (flushWriteBuffer c d).2 := by
  obtain ⟨hw, hsync, s, ds, hs, hlog, hv⟩ := h
  unfold flushWriteBuffer
  by_cases hbuf : c.writeBuffer = []
  · rw [if_pos (Or.inr hbuf)]
    exact ⟨hw, hsync, s, ds, hs, hlog, hv⟩
  · rw [if_neg (by simp [hw, hbuf])]
    refine ⟨hw, fun _ => rfl, s, ds ++ c.writeBuffer, hs, Or.inl ?_, ?_⟩
    · rcases hlog with hl | ⟨hl, hds⟩
      · simp only [hl, Option.getD_some]
        rw [joinNl_eq_encodeLog hbuf, ← encodeLog_append]
      · simp only [hl, Option.getD_none]
        rw [hds]
        simp [joinNl_eq_encodeLog hbuf]
    · simp only [List.sum_append, List.sum_nil]
      rw [hv]; ring

lemma flushWriteBuffer_buffer_empty {c : Counter} {d : Disk}
    (hw : c.isWriting = false) :
    (flushWriteBuffer c d).1.writeBuffer = [] := by
  unfold flushWriteBuffer
  by_cases hbuf : c.writeBuffer = []
  · rw [if_pos (Or.inr hbuf)]; exact hbuf
  · rw [if_neg (by simp [hw, hbuf])]

lemma flushWriteBuffer_isWriting {c : Counter} {d : Disk} :
    (flushWriteBuffer c d).1.isWriting = c.isWriting := by
  unfold flushWriteBuffer
  by_cases hcond : c.isWriting = true ∨ c.writeBuffer = []
  · rw [if_pos hcond]
  · rw [if_neg hcond]

lemma stateInv_flush {c : Counter} {d : Disk} (h : StateInv c d) :
    StateInv (flush c d).1 (flush c d).2 := by
  have hw := h.1
  have hsync := h.2.1
  unfold flush flushT
  by_cases hguard : c.dbInit = false ∨ c.dbOpen = false
  · rw [if_pos hguard]
    exact h
  · rw [if_neg hguard]
    simp only [if_pos rfl]
    by_cases hm : c.mode = .async
    · rw [if_pos hm]
      have hbuf := flushWriteBuffer_buffer_empty (d := d) hw
      refine ⟨?_, fun _ => hbuf, (flushWriteBuffer c d).1.value, [], rfl,
        Or.inl rfl, ?_⟩
      · rw [show ({ (flushWriteBuffer c d).1 with pending := 0 } : Counter).isWriting
            = (flushWriteBuffer c d).1.isWriting from rfl,
          flushWriteBuffer_isWriting]
        exact hw
      · simp [hbuf]
    · rw [if_neg hm]
      have hbuf : c.writeBuffer = [] := by
        cases hmm : c.mode with
        | sync => exact hsync hmm
        | async => exact absurd hmm hm
      exact ⟨hw, fun _ => hbuf, c.value, [], rfl, Or.inl rfl, by simp [hbuf]⟩

lemma stateInv_incrementRest (delta : Int) {c : Counter} {d : Disk}
    (h : StateInv { c with value := c.value + delta, pending := c.pending + 1 } d) :
    StateInv (incrementRest delta c d).1 (incrementRest delta c d).2 := by
  unfold incrementRest
  by_cases hp : c.flushEvery ≤ c.pending + 1
  · rw [if_pos hp]
    exact stateInv_flush h
  · rw [if_neg hp]
    exact h

lemma stateInv_increment (delta : Int) {c : Counter} {d : Disk}
    (h : StateInv c d) :
    StateInv (increment delta c d).1 (increment delta c d).2 := by
  obtain ⟨hw, hsync, s, ds, hs, hlog, hv⟩ := h
  unfold increment incrementT
  cases hm : c.mode with
  | sync =>
    simp only []
    apply stateInv_incrementRest
    refine ⟨hw, fun _ => hsync hm, s, ds ++ [delta], ?_, Or.inl ?_, ?_⟩
    · exact hs
    · show some (d.log.getD [] ++ intToChars delta ++ ['\n']) = _
      rcases hlog with hl | ⟨hl, hds⟩
      · rw [hl, Option.getD_some, encodeLog_append, List.append_assoc]
        rfl
      · rw [hl, Option.getD_none, hds]
        rfl
    · simp only [List.sum_append, List.sum_cons, List.sum_nil]
      rw [hv, hsync hm]
      simp; ring
  | async =>
    simp only []
    apply stateInv_incrementRest
    refine ⟨hw, ?_, s, ds, hs, hlog, ?_⟩
    · intro habs
      have hms : c.mode = Mode.sync := habs
      rw [hm] at hms
      cases hms
    · show c.value + delta = s + ds.sum + (c.writeBuffer ++ [delta]).sum
      rw [List.sum_append, List.sum_cons, List.sum_nil, hv]
      ring

lemma reachable_stateInv {c : Counter} {d : Disk} (h : Reachable c d) :
    StateInv c d := by
  induction h with
  | boot m fe =>
    rw [initOp_none _ _ rfl]
    exact ⟨rfl, fun _ => rfl, 0, [], rfl, Or.inr ⟨rfl, rfl⟩, rfl⟩
  | inc delta _ ih => exact stateInv_increment delta ih
  | dec delta _ ih =>
    unfold decrement
    exact stateInv_increment (-delta) ih
  | drain _ ih => exact stateInv_flushWriteBuffer ih

/-- Claim C2 (amended): for every state reachable from a first `init()`
over a fresh store/log by increments, decrements and buffer drains, the
Durable Store value plus the sum the Operation Log would replay to,
PLUS the deltas still sitting in the async Write Buffer, equals the
in-memory value.  (The literal claim, without the buffer term, fails in
async mode; and after a crash-recovery `init()` over a non-empty log
even this sum fails until the next flush, because replay truncates the
log without writing the store — see `invariant_counterexample`.) -/
theorem three_state_invariant {c : Counter} {d : Disk} (h : Reachable c d) :
    storeValue d + logReplaySum d + c.writeBuffer.sum = c.value := by
  obtain ⟨hw, hsync, s, ds, hs, hlog, hv⟩ := reachable_stateInv h
  unfold storeValue logReplaySum
  rcases hlog with hl | ⟨hl, hds⟩
  · rw [hv, hs, hl]
    simp only [Option.getD_some]
    rw [replay_encodeLog]
    ring
  · rw [hv, hds, hs, hl]
    simp only [Option.getD_some, Option.getD_none]
    rw [show splitNl (jsTrim ([] : List Char)) = [[]] from rfl,
      replayLines_empty_line]
    simp

/-- Witness for `three_state_invariant`: the state after `init()` on a
fresh disk followed by `increment(5)` in sync mode. -/
theorem three_state_invariant_witness :
    storeValue (increment 5 (initOp (mkCounter .sync 10) freshDisk).1
        (initOp (mkCounter .sync 10) freshDisk).2).2
      + logReplaySum (increment 5 (initOp (mkCounter .sync 10) freshDisk).1
          (initOp (mkCounter .sync 10) freshDisk).2).2
      + (increment 5 (initOp (mkCounter .sync 10) freshDisk).1
          (initOp (mkCounter .sync 10) freshDisk).2).1.writeBuffer.sum
      = (increment 5 (initOp (mkCounter .sync 10) freshDisk).1
          (initOp (mkCounter .sync 10) freshDisk).2).1.value :=
  three_state_invariant (Reachable.inc 5 (Reachable.boot .sync 10))

/-- Counterexamples to claim C2 as stated.  First: in async mode one
buffered increment leaves `store + replayable log = 0` while the
in-memory value is 1, so the stated invariant (which omits the Write
Buffer) fails.  Second: after a sync-mode `increment(2)` and a
crash-restart `init()` (a sequence of init/increment operations), the
replay has truncated the log without updating the store, so even with
the buffer term the sum is 0 while the value is 2. -/
theorem invariant_counterexample :
    (storeValue (increment 1 (initOp (mkCounter .async 10) freshDisk).1
          (initOp (mkCounter .async 10) freshDisk).2).2
        + logReplaySum (increment 1 (initOp (mkCounter .async 10) freshDisk).1
            (initOp (mkCounter .async 10) freshDisk).2).2
      ≠ (increment 1 (initOp (mkCounter .async 10) freshDisk).1
          (initOp (mkCounter .async 10) freshDisk).2).1.value) ∧
    (storeValue (initOp (mkCounter .sync 10)
          (incrementsRun [2] (initOp (mkCounter .sync 10) freshDisk)).2).2
        + logReplaySum (initOp (mkCounter .sync 10)
            (incrementsRun [2] (initOp (mkCounter .sync 10) freshDisk)).2).2
        + (initOp (mkCounter .sync 10)
            (incrementsRun [2] (initOp (mkCounter .sync 10) freshDisk)).2).1.writeBuffer.sum
      ≠ (initOp (mkCounter .sync 10)
          (incrementsRun [2] (initOp (mkCounter .sync 10) freshDisk)).2).1.value) := by
  constructor <;> decide

-- ### Flush behaviour lemmas

lemma flushWriteBuffer_value {c : Counter} {d : Disk} :
    (flushWriteBuffer c d).1.value = c.value := by
  unfold flushWriteBuffer
  by_cases hcond : c.isWriting = true ∨ c.writeBuffer = []
  · rw [if_pos hcond]
  · rw [if_neg hcond]

lemma flush_spec_open {c : Counter} {d : Disk}
    (hinit : c.dbInit = true) (hopen : c.dbOpen = true) :
    (flush c d).2.store = some c.value ∧ (flush c d).1.pending = 0 ∧
    (flush c d).2.log = some [] ∧ (flush c d).1.value = c.value := by
  unfold flush flushT
  rw [if_neg (by simp [hinit, hopen])]
  by_cases hm : c.mode = .async
  · rw [if_pos hm]
    refine ⟨?_, rfl, rfl, flushWriteBuffer_value⟩
    show some ((flushWriteBuffer c d).1.value) = some c.value
    rw [flushWriteBuffer_value]
  · rw [if_neg hm]
    exact ⟨rfl, rfl, rfl, rfl⟩

/-- Counterexample to claim C3: constructing with `flushEvery = 0` does
not disable automatic flushing.  After `init()` on a fresh disk the
Durable Store holds 0; the very first `increment(1)` — with no explicit
`flush`, `reset` or `close` — leaves the store holding 1: the increment
initiated a flush. -/
theorem flush_threshold_zero_counterexample :
    (initOp (mkCounter .sync 0) freshDisk).2.store = some 0 ∧
    (increment 1 (initOp (mkCounter .sync 0) freshDisk).1
        (initOp (mkCounter .sync 0) freshDisk).2).2.store ≠ some 0 := by
  constructor <;> decide

/-- Claim C3 (amended): `flushEvery = 0` makes EVERY operation trigger
an automatic flush, because the source's `pending >= flushEvery` test
has no `flushEvery > 0` guard and `pending` is never negative: after
any `increment(delta)` on an initialised open instance, the Durable
Store holds the new value and `pending` is back to 0. -/
theorem flush_threshold_zero (delta : Int) (c : Counter) (d : Disk)
    (hfe : c.flushEvery = 0) (hp : 0 ≤ c.pending)
    (hinit : c.dbInit = true) (hopen : c.dbOpen = true) :
    (increment delta c d).2.store = some (c.value + delta) ∧
    (increment delta c d).1.pending = 0 := by
  have hguard : c.flushEvery ≤ c.pending + 1 := by rw [hfe]; omega
  unfold increment incrementT
  cases hm : c.mode with
  | sync =>
    simp only []
    unfold incrementRest
    rw [if_pos hguard]
    refine ⟨?_, ?_⟩
    · exact (flush_spec_open
        (c := { c with value := c.value + delta, pending := c.pending + 1 })
        (d := logOperationSync delta d) hinit hopen).1
    · exact (flush_spec_open
        (c := { c with value := c.value + delta, pending := c.pending + 1 })
        (d := logOperationSync delta d) hinit hopen).2.1
  | async =>
    simp only [logOperationAsync]
    unfold incrementRest
    rw [if_pos hguard]
    refine ⟨?_, ?_⟩
    · exact (flush_spec_open
        (c := { c with writeBuffer := c.writeBuffer ++ [delta], flushTimer := true, value := c.value + delta, pending := c.pending + 1 })
        (d := d) hinit hopen).1
    · exact (flush_spec_open
        (c := { c with writeBuffer := c.writeBuffer ++ [delta], flushTimer := true, value := c.value + delta, pending := c.pending + 1 })
        (d := d) hinit hopen).2.1

/-- Witness for `flush_threshold_zero` on the freshly initialised
instance with `flushEvery = 0`. -/
theorem flush_threshold_zero_witness :
    ((initOp (mkCounter .async 0) freshDisk).1.flushEvery = 0 ∧
     0 ≤ (initOp (mkCounter .async 0) freshDisk).1.pending ∧
     (initOp (mkCounter .async 0) freshDisk).1.dbInit = true ∧
     (initOp (mkCounter .async 0) freshDisk).1.dbOpen = true) ∧
    ((increment 3 (initOp (mkCounter .async 0) freshDisk).1
        (initOp (mkCounter .async 0) freshDisk).2).2.store
      = some ((initOp (mkCounter .async 0) freshDisk).1.value + 3) ∧
     (increment 3 (initOp (mkCounter .async 0) freshDisk).1
        (initOp (mkCounter .async 0) freshDisk).2).1.pending = 0) :=
  ⟨⟨by decide, by decide, by decide, by decide⟩,
   flush_threshold_zero 3 _ _ (by decide) (by decide) (by decide) (by decide)⟩

-- ### Pointwise replay lemmas for concrete logs

lemma replay_cons_parsed {v delta : Int} {line : List Char}
    {rest : List (List Char)} (hne : ¬ line = [])
    (hp : jsParseInt line = some delta) :
    replayLines v (line :: rest) = replayLines (v + delta) rest := by
  simp [replayLines, hne, hp]

lemma replay_cons_skip {v : Int} {line : List Char}
    {rest : List (List Char)} (hne : ¬ line = [])
    (hp : jsParseInt line = none) :
    replayLines v (line :: rest) = replayLines v rest := by
  simp [replayLines, hne, hp]

lemma replay_nil (v : Int) : replayLines v [] = v := rfl

-- ### Claim C4: sync-mode append failure

/-- Counterexample to claim C4: in sync mode a failed log append does
propagate an error, but at the moment it surfaces the in-memory value
has NOT been advanced by the delta — `_logOperationSync` runs (and
rethrows) BEFORE `this.value += delta` in the source.  On a freshly
initialised sync instance (value 0), a failing `increment(1)` surfaces
`logWriteFailed` with the value still 0, not 1. -/
theorem sync_append_failure_counterexample :
    (incrementT false 1 (initOp (mkCounter .sync 10) freshDisk).1
        (initOp (mkCounter .sync 10) freshDisk).2).1
      = Except.error JsError.logWriteFailed ∧
    (incrementT false 1 (initOp (mkCounter .sync 10) freshDisk).1
        (initOp (mkCounter .sync 10) freshDisk).2).2.1.value
      ≠ (initOp (mkCounter .sync 10) freshDisk).1.value + 1 := by
  exact ⟨rfl, by decide⟩

/-- Claim C4 (amended): in sync mode, if the Operation Log append
performed by `increment(delta)` fails, the error is propagated to the
caller — but the instance and the disk are exactly as before the call:
in particular the in-memory value has not advanced, because the append
precedes the value update in the source, so the failed operation has no
logical effect at all. -/
theorem sync_append_failure (delta : Int) (c : Counter) (d : Disk)
    (hm : c.mode = .sync) :
    incrementT false delta c d
      = (Except.error JsError.logWriteFailed, c, d) := by
  unfold incrementT
  rw [hm]
  rfl

/-- Witness for `sync_append_failure` on a freshly initialised sync
instance. -/
theorem sync_append_failure_witness :
    (initOp (mkCounter .sync 10) freshDisk).1.mode = Mode.sync ∧
    incrementT false 2 (initOp (mkCounter .sync 10) freshDisk).1
        (initOp (mkCounter .sync 10) freshDisk).2
      = (Except.error JsError.logWriteFailed,
         (initOp (mkCounter .sync 10) freshDisk).1,
         (initOp (mkCounter .sync 10) freshDisk).2) :=
  ⟨by decide, sync_append_failure 2 _ _ (by decide)⟩

-- ### Claim C5: flush failure

lemma flushWriteBuffer_pending {c : Counter} {d : Disk} :
    (flushWriteBuffer c d).1.pending = c.pending := by
  unfold flushWriteBuffer
  by_cases hcond : c.isWriting = true ∨ c.writeBuffer = []
  · rw [if_pos hcond]
  · rw [if_neg hcond]

lemma flushWriteBuffer_store {c : Counter} {d : Disk} :
    (flushWriteBuffer c d).2.store = d.store := by
  unfold flushWriteBuffer
  by_cases hcond : c.isWriting = true ∨ c.writeBuffer = []
  · rw [if_pos hcond]
  · rw [if_neg hcond]

lemma flushWriteBuffer_log {c : Counter} {d : Disk} :
    (flushWriteBuffer c d).2.log =
      (if c.isWriting = true ∨ c.writeBuffer = [] then d.log
       else some (d.log.getD [] ++ joinNl c.writeBuffer)) := by
  unfold flushWriteBuffer
  by_cases hcond : c.isWriting = true ∨ c.writeBuffer = []
  · rw [if_pos hcond, if_pos hcond]
  · rw [if_neg hcond, if_neg hcond]

/-- Counterexample to claim C5: when the Durable Store write in
`flush()` fails in async mode with a non-empty Write Buffer, the
Operation Log is NOT left exactly as it was: the buffer was drained
into the log first.  After `init()` and a buffered `increment(5)` the
log file does not yet exist; the failing `flush()` surfaces
`flushFailed` but leaves the log containing the drained delta. -/
theorem flush_failure_counterexample :
    (flushT false
        (increment 5 (initOp (mkCounter .async 10) freshDisk).1
          (initOp (mkCounter .async 10) freshDisk).2).1
        (increment 5 (initOp (mkCounter .async 10) freshDisk).1
          (initOp (mkCounter .async 10) freshDisk).2).2).1
      = Except.error JsError.flushFailed ∧
    (flushT false
        (increment 5 (initOp (mkCounter .async 10) freshDisk).1
          (initOp (mkCounter .async 10) freshDisk).2).1
        (increment 5 (initOp (mkCounter .async 10) freshDisk).1
          (initOp (mkCounter .async 10) freshDisk).2).2).2.2.log
      ≠ (increment 5 (initOp (mkCounter .async 10) freshDisk).1
          (initOp (mkCounter .async 10) freshDisk).2).2.log := by
  exact ⟨rfl, by decide⟩

/-- Claim C5 (amended): if the Durable Store write inside `flush()`
fails on an open instance, `flushFailed` is surfaced and `pending`, the
in-memory value and the store are unchanged, and the log is never
truncated: in sync mode instance and disk are exactly as before; in
async mode the Write Buffer has first been drained, appending the
buffered deltas to the log (so no delta is lost and a retry is safe). -/
theorem flush_failure_semantics (c : Counter) (d : Disk)
    (hinit : c.dbInit = true) (hopen : c.dbOpen = true) :
    (flushT false c d).1 = Except.error JsError.flushFailed ∧
    (flushT false c d).2.1.pending = c.pending ∧
    (flushT false c d).2.1.value = c.value ∧
    (flushT false c d).2.2.store = d.store ∧
    (c.mode = .sync → (flushT false c d).2 = (c, d)) ∧
    (c.mode = .async → (flushT false c d).2.2.log =
      (if c.isWriting = true ∨ c.writeBuffer = [] then d.log
       else some (d.log.getD [] ++ joinNl c.writeBuffer))) := by
  unfold flushT
  rw [if_neg (by simp [hinit, hopen])]
  by_cases hm : c.mode = .async
  · rw [if_pos hm]
    refine ⟨rfl, flushWriteBuffer_pending, flushWriteBuffer_value,
      flushWriteBuffer_store, ?_, fun _ => flushWriteBuffer_log⟩
    intro habs
    rw [habs] at hm
    cases hm
  · rw [if_neg hm]
    exact ⟨rfl, rfl, rfl, rfl, fun _ => rfl, fun habs => absurd habs hm⟩

/-- Witness for `flush_failure_semantics` at the post-`init()`,
one-buffered-increment async state. -/
theorem flush_failure_semantics_witness :
    ((increment 5 (initOp (mkCounter .async 10) freshDisk).1
        (initOp (mkCounter .async 10) freshDisk).2).1.dbInit = true ∧
     (increment 5 (initOp (mkCounter .async 10) freshDisk).1
        (initOp (mkCounter .async 10) freshDisk).2).1.dbOpen = true) ∧
    (flushT false
        (increment 5 (initOp (mkCounter .async 10) freshDisk).1
          (initOp (mkCounter .async 10) freshDisk).2).1
        (increment 5 (initOp (mkCounter .async 10) freshDisk).1
          (initOp (mkCounter .async 10) freshDisk).2).2).1
      = Except.error JsError.flushFailed :=
  ⟨⟨by decide, by decide⟩,
   (flush_failure_semantics _ _ (by decide) (by decide)).1⟩

-- ### Claim C6: corrupted log tolerance

/-- Claim C6: running `init()` (any mode, any threshold) when the log
file contains exactly `"1\n2\ninvalid\n3\n"` increases the loaded value
by exactly 6 — the unparseable line is skipped — and raises no error
(the source wraps replay in a catch, and this success path is total). -/
theorem corrupted_log_tolerance (m : Mode) (fe v0 : Int) :
    getValue (initOp (mkCounter m fe)
      ⟨some v0, some ("1\n2\ninvalid\n3\n".toList)⟩).1 = v0 + 6 := by
  rw [initOp_some _ _ _ rfl]
  show replayLines ((some v0).getD 0)
      (splitNl (jsTrim ("1\n2\ninvalid\n3\n".toList))) = v0 + 6
  rw [show splitNl (jsTrim ("1\n2\ninvalid\n3\n".toList)) =
      ["1".toList, "2".toList, "invalid".toList, "3".toList] from by decide]
  rw [Option.getD_some,
    replay_cons_parsed (by decide) (show jsParseInt ("1".toList) = some 1 by decide),
    replay_cons_parsed (by decide) (show jsParseInt ("2".toList) = some 2 by decide),
    replay_cons_skip (by decide) (show jsParseInt ("invalid".toList) = none by decide),
    replay_cons_parsed (by decide) (show jsParseInt ("3".toList) = some 3 by decide),
    replay_nil]
  ring

-- ### Claim C7: close is not idempotent

lemma flushWriteBuffer_dbOpen {c : Counter} {d : Disk} :
    (flushWriteBuffer c d).1.dbOpen = c.dbOpen := by
  unfold flushWriteBuffer
  by_cases hcond : c.isWriting = true ∨ c.writeBuffer = []
  · rw [if_pos hcond]
  · rw [if_neg hcond]

lemma flush_dbOpen {c : Counter} {d : Disk} :
    (flush c d).1.dbOpen = c.dbOpen := by
  unfold flush flushT
  by_cases hguard : c.dbInit = false ∨ c.dbOpen = false
  · rw [if_pos hguard]
  · rw [if_neg hguard]
    by_cases hm : c.mode = .async
    · rw [if_pos hm]
      exact flushWriteBuffer_dbOpen
    · rw [if_neg hm]
      rfl

lemma dbCloseT_closed {c : Counter} (h : c.dbOpen = false) :
    dbCloseT c = Except.error JsError.dbAlreadyClosed := by
  unfold dbCloseT
  rw [if_neg (by rw [h]; simp)]

/-- Counterexample to claim C7: `close()` is not idempotent.  The first
`close()` on a freshly initialised instance succeeds; the second runs
its internal flush as a no-op but then calls `this.db.close()` on the
already-released handle, whose rejection propagates. -/
theorem close_idempotent_counterexample :
    (closeT (initOp (mkCounter .sync 10) freshDisk).1
        (initOp (mkCounter .sync 10) freshDisk).2).1 = Except.ok () ∧
    (closeT
        (closeT (initOp (mkCounter .sync 10) freshDisk).1
          (initOp (mkCounter .sync 10) freshDisk).2).2.1
        (closeT (initOp (mkCounter .sync 10) freshDisk).1
          (initOp (mkCounter .sync 10) freshDisk).2).2.2).1
      = Except.error JsError.dbAlreadyClosed := by
  exact ⟨rfl, rfl⟩

/-- Claim C7 (amended): after a first `close()` has released the
Durable Store handle, any further `close()` is NOT a no-op: its
internal flush skips (the handle is closed), but the unconditional
`this.db.close()` is invoked on the released handle and its error
propagates to the caller — the manager in `src/index.js` therefore
guards `close` behind a `db.open` check. -/
theorem close_after_close_errors (c : Counter) (d : Disk)
    (h : c.dbOpen = false) :
    (closeT c d).1 = Except.error JsError.dbAlreadyClosed := by
  simp only [closeT]
  by_cases hm : c.mode = Mode.async
  · rw [if_pos hm, dbCloseT_closed
      (by rw [flush_dbOpen, flushWriteBuffer_dbOpen]; exact h)]
  · rw [if_neg hm, dbCloseT_closed (by rw [flush_dbOpen]; exact h)]

/-- Witness for `close_after_close_errors` at the state left by a first
successful `close()`. -/
theorem close_after_close_witness :
    (closeT (initOp (mkCounter .async 10) freshDisk).1
        (initOp (mkCounter .async 10) freshDisk).2).2.1.dbOpen = false ∧
    (closeT
        (closeT (initOp (mkCounter .async 10) freshDisk).1
          (initOp (mkCounter .async 10) freshDisk).2).2.1
        (closeT (initOp (mkCounter .async 10) freshDisk).1
          (initOp (mkCounter .async 10) freshDisk).2).2.2).1
      = Except.error JsError.dbAlreadyClosed :=
  ⟨by decide, close_after_close_errors _ _ (by decide)⟩

-- ### Claim C8: flush after close is a harmless no-op

/-- Claim C8: once the Durable Store handle is closed, `flush()` —
whether the store write would succeed or fail — returns without error
and changes nothing: no store write, no log truncation, no pending
reset (the guard at the top of `flush` returns immediately). -/
theorem flush_after_close_noop (dbOk : Bool) (c : Counter) (d : Disk)
    (h : c.dbOpen = false) :
    flushT dbOk c d = (Except.ok (), c, d) := by
  unfold flushT
  rw [if_pos (Or.inr h)]

/-- Witness for `flush_after_close_noop` at the state left by a
`close()`. -/
theorem flush_after_close_noop_witness :
    (closeT (initOp (mkCounter .sync 10) freshDisk).1
        (initOp (mkCounter .sync 10) freshDisk).2).2.1.dbOpen = false ∧
    flushT true
        (closeT (initOp (mkCounter .sync 10) freshDisk).1
          (initOp (mkCounter .sync 10) freshDisk).2).2.1
        (closeT (initOp (mkCounter .sync 10) freshDisk).1
          (initOp (mkCounter .sync 10) freshDisk).2).2.2
      = (Except.ok (),
         (closeT (initOp (mkCounter .sync 10) freshDisk).1
           (initOp (mkCounter .sync 10) freshDisk).2).2.1,
         (closeT (initOp (mkCounter .sync 10) freshDisk).1
           (initOp (mkCounter .sync 10) freshDisk).2).2.2) :=
  ⟨by decide, flush_after_close_noop true _ _ (by decide)⟩

-- ### Claim C9: there is no lifecycle guard

lemma flush_closed {c : Counter} {d : Disk}
    (h : c.dbInit = false ∨ c.dbOpen = false) : flush c d = (c, d) := by
  unfold flush flushT
  rw [if_pos h]

lemma incrementRest_closed (delta : Int) {c : Counter} {d : Disk}
    (h : c.dbInit = false ∨ c.dbOpen = false) :
    incrementRest delta c d =
      ({ c with value := c.value + delta, pending := c.pending + 1 }, d) := by
  unfold incrementRest
  by_cases hp : c.flushEvery ≤ c.pending + 1
  · rw [if_pos hp]
    exact flush_closed
      (c := { c with value := c.value + delta, pending := c.pending + 1 }) h
  · rw [if_neg hp]

/-- Counterexample to claim C9: calling `increment` before `init()` has
run does not fail fast with any `NotReady` error — it silently mutates
state: on a just-constructed sync instance (no `init`), `increment(1)`
returns normally and the in-memory value becomes 1. -/
theorem lifecycle_guard_counterexample :
    (incrementT true 1 (mkCounter .sync 10) freshDisk).1 = Except.ok () ∧
    (incrementT true 1 (mkCounter .sync 10) freshDisk).2.1.value = 1 := by
  exact ⟨rfl, by decide⟩

/-- Claim C9 (amended): the source has no lifecycle guard at all.  On
an instance whose database handle was never initialised (before
`init()`), `increment` returns without error, advances the in-memory
value by the delta and appends to the log; only the threshold flush is
silently skipped by the `!this.db` guard, so the Durable Store is
untouched.  (After `close()` the behaviour is the same via the
`!this.db.open` guard.)  No `NotReady`/`Closed` error exists in the
code. -/
theorem no_lifecycle_guard (delta : Int) (c : Counter) (d : Disk)
    (h : c.dbInit = false) :
    (incrementT true delta c d).1 = Except.ok () ∧
    (incrementT true delta c d).2.1.value = c.value + delta ∧
    (incrementT true delta c d).2.2.store = d.store := by
  unfold incrementT
  cases hm : c.mode with
  | sync =>
    simp only []
    rw [if_pos trivial, incrementRest_closed delta (Or.inl h)]
    exact ⟨rfl, rfl, rfl⟩
  | async =>
    simp only []
    rw [incrementRest_closed delta (c := logOperationAsync delta c)
      (Or.inl h)]
    exact ⟨trivial, rfl, rfl⟩

/-- Witness for `no_lifecycle_guard` on a just-constructed (never
initialised) instance. -/
theorem no_lifecycle_guard_witness :
    (mkCounter .sync 10).dbInit = false ∧
    ((incrementT true 4 (mkCounter .sync 10) freshDisk).1 = Except.ok () ∧
     (incrementT true 4 (mkCounter .sync 10) freshDisk).2.1.value
       = (mkCounter .sync 10).value + 4 ∧
     (incrementT true 4 (mkCounter .sync 10) freshDisk).2.2.store
       = freshDisk.store) :=
  ⟨by decide, no_lifecycle_guard 4 _ _ (by decide)⟩

-- ### Claim C10: replay parses integer prefixes

/-- Claim C10: replay parses integer prefixes rather than whole
records.  `parseInt("3abc", 10)` is 3, not `NaN`, so during `init()` a
log line `"3abc"` is not skipped: the value increases by 3. -/
theorem replay_parses_leading_integer (m : Mode) (fe v0 : Int) :
    jsParseInt ("3abc".toList) = some 3 ∧
    getValue (initOp (mkCounter m fe)
      ⟨some v0, some ("3abc\n".toList)⟩).1 = v0 + 3 := by
  refine ⟨by decide, ?_⟩
  rw [initOp_some _ _ _ rfl]
  show replayLines ((some v0).getD 0)
      (splitNl (jsTrim ("3abc\n".toList))) = v0 + 3
  rw [show splitNl (jsTrim ("3abc\n".toList)) = ["3abc".toList] from by decide]
  rw [Option.getD_some,
    replay_cons_parsed (by decide) (show jsParseInt ("3abc".toList) = some 3 by decide),
    replay_nil]
